import Mathlib

/-!
# Verification of the microservice benchmark orchestration engine

Shallow embedding of `sdk/mx.sdk/mx_sdk_benchmark.py`, covering:

* unit conversion (`convertValue` and the three unit tables),
* the Wrk workload-configuration loader (`loadConfiguration`),
* the per-trial result aggregation (`computeAverage`), in both a pure view
  and a store-based view that models Python's in-place dictionary mutation,
* the peak-throughput/footprint composite metric (`computePeakThroughputRSS`),
* the JMeter tail trimming (`tailDatapointsToSkip` and the slicing in `run`),
* the port-polling service probe (`waitForPort`),
* the stage controller's exit-code validation (`run_stage` / `validateReturnCode`),
* the latency-calibration target-rate computation in `testLatency`.

Python floats are modelled as exact rationals (`ℚ`); Python's `int(x)`
truncation is modelled by `pyInt`.
-/

namespace MxSdkBenchmark

/-- Python's `int(x)` on a float: truncation toward zero. -/
def pyInt (q : ℚ) : ℤ := if 0 ≤ q then ⌊q⌋ else ⌈q⌉

/-! ## JSON values

`json.load` produces Python scalars (numbers, strings, booleans) and lists;
these are the only shapes the Wrk configuration code distinguishes
(`isScalarValue` tests for `int`/`float`/`bool`/`str`). -/

/-- A JSON value as manipulated by `loadConfiguration`. -/
inductive JVal
  | num (q : ℚ)
  | str (s : String)
  | jbool (b : Bool)
  | list (xs : List JVal)
deriving Inhabited

/-- `BaseWrkBenchmarkSuite.isScalarValue`: `type(value) in (int, float, bool)`
or a string. Lists (and only lists, in this model) are non-scalar. -/
def isScalarValue : JVal → Bool
  | .num _ => true
  | .str _ => true
  | .jbool _ => true
  | .list _ => false

/-- Python truthiness of a JSON value (`if requestsPerSecond:`):
zero numbers, empty strings, `False` and empty lists are falsy. -/
def jTruthy : JVal → Bool
  | .num q => q ≠ 0
  | .str s => s ≠ ""
  | .jbool b => b
  | .list xs => !xs.isEmpty

/-! ## Unit conversion (`convertValue` and the unit tables) -/

/-- First-match lookup in a conversion table (`table[unit]` on a dict with
unique keys). -/
def tableLookup : List (String × ℚ) → String → Option ℚ
  | [], _ => none
  | (k, v) :: rest, u => if k = u then some v else tableLookup rest u

/-- `convertValue(table, value, fromUnit, toUnit)`.  Unknown units hit
`mx.abort` (the source prints `fromUnit` in both messages); otherwise the
result is `value * fromFactor / toFactor`. -/
def convertValue (table : List (String × ℚ)) (value : ℚ) (fromUnit toUnit : String) :
    Except String ℚ :=
  match tableLookup table fromUnit with
  | none => .error ("Unexpected unit: " ++ fromUnit)
  | some fromFactor =>
    match tableLookup table toUnit with
    | none => .error ("Unexpected unit: " ++ fromUnit)
    | some toFactor => .ok (value * fromFactor / toFactor)

/-- `timeUnitTable`: factors anchored at nanoseconds. -/
def timeUnitTable : List (String × ℚ) :=
  [("ns", 1), ("us", 1000), ("ms", 1000 * 1000), ("s", 1000 * 1000 * 1000),
   ("min", 60 * 1000 * 1000 * 1000), ("h", 60 * 60 * 1000 * 1000 * 1000)]

/-- `tputUnitTable`: factors anchored at operations per nanosecond. -/
def tputUnitTable : List (String × ℚ) :=
  [("op/ns", 1), ("op/us", 1 / 1000), ("op/ms", 1 / (1000 * 1000)),
   ("op/s", 1 / (1000 * 1000 * 1000)), ("op/min", 1 / (60 * 1000 * 1000 * 1000)),
   ("op/h", 1 / (60 * 60 * 1000 * 1000 * 1000))]

/-- `memUnitTable`: factors anchored at bytes. -/
def memUnitTable : List (String × ℚ) :=
  [("B", 1), ("kB", 1000), ("MB", 1000 * 1000), ("GB", 1000 * 1000 * 1000),
   ("KiB", 1024), ("MiB", 1024 * 1024), ("GiB", 1024 * 1024 * 1024)]

/-- Keys of a conversion table. -/
def tableKeys (table : List (String × ℚ)) : List String := table.map Prod.fst

theorem tableLookup_mem {table : List (String × ℚ)} {u : String} {f : ℚ}
    (h : tableLookup table u = some f) : (u, f) ∈ table := by
  induction table with
  | nil => simp [tableLookup] at h
  | cons p rest ih =>
    obtain ⟨k, v⟩ := p
    by_cases hk : k = u
    · subst hk
      simp [tableLookup] at h
      simp [h]
    · simp [tableLookup, hk] at h
      exact List.mem_cons_of_mem _ (ih h)

theorem tableLookup_isSome_of_mem {table : List (String × ℚ)} {u : String}
    (h : u ∈ tableKeys table) : ∃ f, tableLookup table u = some f := by
  induction table with
  | nil => simp [tableKeys] at h
  | cons p rest ih =>
    obtain ⟨k, v⟩ := p
    by_cases hk : k = u
    · exact ⟨v, by simp [tableLookup, hk]⟩
    · simp [tableKeys, hk] at h
      rcases h with h | h
      · exact absurd h.symm hk
      · obtain ⟨f, hf⟩ := ih (by simpa [tableKeys] using h)
        exact ⟨f, by simp [tableLookup, hk, hf]⟩

/-- Round-trip core: with both units resolved to nonzero factors,
converting there and back is the identity (exact rational arithmetic). -/
theorem convertValue_roundtrip_core {table : List (String × ℚ)} {A B : String}
    {fA fB : ℚ} (v : ℚ) (hA : tableLookup table A = some fA)
    (hB : tableLookup table B = some fB) (hfA : fA ≠ 0) (hfB : fB ≠ 0) :
    convertValue table (v * fA / fB) B A = .ok v := by
  simp only [convertValue, hA, hB]
  congr 1
  field_simp

/-- All factors of the three tables are nonzero. -/
theorem tables_factors_nonzero :
    (∀ p ∈ timeUnitTable, p.2 ≠ 0) ∧ (∀ p ∈ tputUnitTable, p.2 ≠ 0) ∧
      (∀ p ∈ memUnitTable, p.2 ≠ 0) := by
  refine ⟨?_, ?_, ?_⟩ <;> · intro p hp; fin_cases hp <;> norm_num

/-- Round trip through one table whose factors are all nonzero. -/
theorem convertValue_roundtrip_table {table : List (String × ℚ)}
    (hnz : ∀ p ∈ table, p.2 ≠ 0) (v : ℚ) {A B : String}
    (hA : A ∈ tableKeys table) (hB : B ∈ tableKeys table) :
    ∃ w, convertValue table v A B = .ok w ∧ convertValue table w B A = .ok v := by
  obtain ⟨fA, hfA⟩ := tableLookup_isSome_of_mem hA
  obtain ⟨fB, hfB⟩ := tableLookup_isSome_of_mem hB
  have hnzA : fA ≠ 0 := hnz _ (tableLookup_mem hfA)
  have hnzB : fB ≠ 0 := hnz _ (tableLookup_mem hfB)
  refine ⟨v * fA / fB, ?_, ?_⟩
  · simp [convertValue, hfA, hfB]
  · exact convertValue_roundtrip_core v hfA hfB hnzA hnzB

/-- C7: for every value `v` and every pair of units `A`, `B` present in the
same conversion table (time, throughput, or memory),
`convert(table, convert(table, v, A, B), B, A)` equals `v` — exactly, in the
rational model of the float arithmetic. -/
theorem C7_convertValue_roundtrip (v : ℚ) (A B : String) :
    (A ∈ tableKeys timeUnitTable → B ∈ tableKeys timeUnitTable →
      ∃ w, convertValue timeUnitTable v A B = .ok w ∧
        convertValue timeUnitTable w B A = .ok v)
  ∧ (A ∈ tableKeys tputUnitTable → B ∈ tableKeys tputUnitTable →
      ∃ w, convertValue tputUnitTable v A B = .ok w ∧
        convertValue tputUnitTable w B A = .ok v)
  ∧ (A ∈ tableKeys memUnitTable → B ∈ tableKeys memUnitTable →
      ∃ w, convertValue memUnitTable v A B = .ok w ∧
        convertValue memUnitTable w B A = .ok v) :=
  ⟨fun hA hB => convertValue_roundtrip_table tables_factors_nonzero.1 v hA hB,
   fun hA hB => convertValue_roundtrip_table tables_factors_nonzero.2.1 v hA hB,
   fun hA hB => convertValue_roundtrip_table tables_factors_nonzero.2.2 v hA hB⟩

/-- Witness for C7 at `v = 5`, `A = "ns"`, `B = "ms"` in the time table. -/
theorem C7_convertValue_roundtrip_witness :
    ∃ w, convertValue timeUnitTable 5 "ns" "ms" = .ok w ∧
      convertValue timeUnitTable w "ms" "ns" = .ok 5 :=
  (C7_convertValue_roundtrip 5 "ns" "ms").1 (by decide) (by decide)

/-! ## JMeter tail trimming (`tailDatapointsToSkip` and the slice in `run`) -/

/-- `BaseJMeterBenchmarkSuite.tailDatapointsToSkip`: `int(len(results) * .10)`. -/
def tailDatapointsToSkip {α : Type} (results : List α) : ℕ :=
  (pyInt ((results.length : ℚ) * (0.10 : ℚ))).toNat

/-- The slice `results[:len(results) - self.tailDatapointsToSkip(results)]`
performed by `BaseJMeterBenchmarkSuite.run`. -/
def jmeterTrimmedResults {α : Type} (results : List α) : List α :=
  results.take (results.length - tailDatapointsToSkip results)

/-- C9: the trim drops exactly the last `⌊len * 0.10⌋` elements and keeps the
remaining prefix in order; a 100-element sequence loses its last 10 elements
and a 5-element sequence loses none. -/
theorem C9_jmeterTrim_spec {α : Type} (results : List α) :
    tailDatapointsToSkip results = results.length / 10
  ∧ (jmeterTrimmedResults results).length = results.length - results.length / 10
  ∧ jmeterTrimmedResults results
      ++ results.drop (results.length - results.length / 10) = results
  ∧ (results.length = 100 → (jmeterTrimmedResults results).length = 90)
  ∧ (results.length = 5 → jmeterTrimmedResults results = results) := by
  have hskip : tailDatapointsToSkip results = results.length / 10 := by
    unfold tailDatapointsToSkip pyInt
    have h0 : (0 : ℚ) ≤ (results.length : ℚ) * (0.10 : ℚ) := by positivity
    rw [if_pos h0]
    have : (results.length : ℚ) * (0.10 : ℚ) = (results.length : ℚ) / 10 := by
      rw [show (0.10 : ℚ) = 1 / 10 by norm_num, mul_one_div]
    rw [this, Int.floor_toNat, Nat.floor_div_ofNat, Nat.floor_natCast]
  refine ⟨hskip, ?_, ?_, ?_, ?_⟩
  · simp [jmeterTrimmedResults, hskip]
  · simp [jmeterTrimmedResults, hskip]
  · intro h100
    simp [jmeterTrimmedResults, hskip, h100]
  · intro h5
    simp [jmeterTrimmedResults, hskip, h5]

/-- Witness for C9 on concrete 100- and 5-element sequences. -/
theorem C9_jmeterTrim_spec_witness :
    (jmeterTrimmedResults (List.range 100)).length = 90
  ∧ jmeterTrimmedResults [1, 2, 3, 4, 5] = [1, 2, 3, 4, 5] :=
  ⟨(C9_jmeterTrim_spec (List.range 100)).2.2.2.1 (by simp),
   (C9_jmeterTrim_spec [1, 2, 3, 4, 5]).2.2.2.2 (by simp)⟩

/-! ## Aggregation of wrk2 trial results (`computeAverage`)

A `MeasurementResult` is a Python dict mapping a label (`"throughput"` or a
percentile string) to a float; we model it as an association list with the
dict's insertion order, unique keys, and exact rational values.  This section
gives the pure value-level view (inputs are distinct dict objects); the
store-based view modelling Python's in-place mutation follows below. -/

/-- A MeasurementResult: association list view of a Python dict. -/
abbrev MR := List (String × ℚ)

/-- The key list of a result, in dict order (`result.keys()`). -/
def keyList (m : MR) : List String := m.map Prod.fst

/-- `set(a) == set(b)` on two key lists. -/
def sameKeySet (a b : List String) : Bool :=
  a.all (fun k => decide (k ∈ b)) && b.all (fun k => decide (k ∈ a))

/-- Failure modes of `computeAverage`: `mx.abort` on an empty input
(`EmptyInput` in the design document) or on differing key sets
(`KeySetMismatch`). -/
inductive AvgError
  | EmptyInput
  | KeySetMismatch
deriving DecidableEq

/-- `m[k]`, first-match lookup; total with default 0 (the code only reads
keys that are present). -/
def mrLookup : MR → String → ℚ
  | [], _ => 0
  | (k', v) :: rest, k => if k' = k then v else mrLookup rest k

/-- `m[k] = w` on an existing key: replace the value in place, keeping the
dict order. -/
def mrUpdate : MR → String → ℚ → MR
  | [], _, _ => []
  | (k', v) :: rest, k, w =>
    if k' = k then (k', w) :: mrUpdate rest k w else (k', v) :: mrUpdate rest k w

theorem keyList_mrUpdate (m : MR) (k : String) (w : ℚ) :
    keyList (mrUpdate m k w) = keyList m := by
  induction m with
  | nil => rfl
  | cons p rest ih =>
    obtain ⟨k', v⟩ := p
    by_cases hk : k' = k <;> simp [mrUpdate, hk, keyList] at ih ⊢ <;> exact ih

theorem mrLookup_mrUpdate_self {m : MR} {k : String} (w : ℚ)
    (h : k ∈ keyList m) : mrLookup (mrUpdate m k w) k = w := by
  induction m with
  | nil => simp [keyList] at h
  | cons p rest ih =>
    obtain ⟨k', v⟩ := p
    by_cases hk : k' = k
    · simp [mrUpdate, hk, mrLookup]
    · simp [keyList, hk] at h
      rcases h with h | h
      · exact absurd h.symm hk
      · simp [mrUpdate, hk, mrLookup]
        exact ih (by simpa [keyList] using h)

theorem mrLookup_mrUpdate_ne {k k' : String} (m : MR) (w : ℚ) (h : k' ≠ k) :
    mrLookup (mrUpdate m k w) k' = mrLookup m k' := by
  induction m with
  | nil => rfl
  | cons p rest ih =>
    obtain ⟨k0, v⟩ := p
    by_cases hk : k0 = k
    · subst hk
      have hne : k0 ≠ k' := fun e => h e.symm
      simp [mrUpdate, mrLookup, hne, ih]
    · by_cases hk' : k0 = k'
      · simp [mrUpdate, mrLookup, hk, hk', h]
      · simp [mrUpdate, mrLookup, hk, hk', ih]

theorem mrLookup_eq_zero {m : MR} {k : String} (h : k ∉ keyList m) :
    mrLookup m k = 0 := by
  induction m with
  | nil => rfl
  | cons p rest ih =>
    obtain ⟨k', v⟩ := p
    simp only [keyList, List.map_cons, List.mem_cons, not_or] at h
    have hne : k' ≠ k := fun e => h.1 e.symm
    simp [mrLookup, hne, ih (by simpa [keyList] using h.2)]

theorem sameKeySet_iff {a b : List String} :
    sameKeySet a b = true ↔ (∀ k, k ∈ a ↔ k ∈ b) := by
  simp only [sameKeySet, Bool.and_eq_true, List.all_eq_true, decide_eq_true_eq]
  constructor
  · rintro ⟨h1, h2⟩ k
    exact ⟨fun hk => h1 k hk, fun hk => h2 k hk⟩
  · intro h
    exact ⟨fun k hk => (h k).1 hk, fun k hk => (h k).2 hk⟩

theorem sameKeySet_refl (a : List String) : sameKeySet a a = true :=
  sameKeySet_iff.2 fun _ => Iff.rfl

/-- The inner loop `for key, value in result.items(): average[key] += result[key]`
of `computeAverage`, for one later trial `res` added into `avg` (the two are
distinct dicts here, so `result[key]` is the item's own value). -/
def addLoop (avg res : MR) : MR :=
  res.foldl (fun a p => mrUpdate a p.1 (mrLookup a p.1 + p.2)) avg

theorem keyList_addLoop (avg res : MR) : keyList (addLoop avg res) = keyList avg := by
  induction res generalizing avg with
  | nil => rfl
  | cons p rest ih =>
    simp only [addLoop, List.foldl_cons] at ih ⊢
    rw [ih, keyList_mrUpdate]

theorem addLoop_lookup {res : MR} (avg : MR) (hnd : (keyList res).Nodup)
    (hsub : ∀ k ∈ keyList res, k ∈ keyList avg) (k : String) :
    mrLookup (addLoop avg res) k = mrLookup avg k + mrLookup res k := by
  induction res generalizing avg with
  | nil => simp [addLoop, mrLookup]
  | cons p rest ih =>
    obtain ⟨k0, v0⟩ := p
    simp only [keyList, List.map_cons, List.nodup_cons] at hnd
    have hk0 : k0 ∈ keyList avg := hsub k0 (by simp [keyList])
    have hstep : keyList (mrUpdate avg k0 (mrLookup avg k0 + v0)) = keyList avg :=
      keyList_mrUpdate ..
    simp only [addLoop, List.foldl_cons] at ih ⊢
    rw [ih (mrUpdate avg k0 (mrLookup avg k0 + v0)) hnd.2
      (fun k hk => by
        rw [hstep]
        refine hsub k ?_
        simp only [keyList, List.map_cons, List.mem_cons]
        exact Or.inr (by simpa [keyList] using hk))]
    by_cases hk : k = k0
    · subst hk
      rw [mrLookup_mrUpdate_self _ hk0]
      have hz : mrLookup rest k = 0 :=
        mrLookup_eq_zero (by simpa [keyList] using hnd.1)
      simp [mrLookup, hz]
    · rw [mrLookup_mrUpdate_ne _ _ hk]
      have hne : k0 ≠ k := fun e => hk e.symm
      simp [mrLookup, hne]

/-- The main loop of `computeAverage`: key-set check against the first
trial's key set, then accumulate (`mx.abort` on mismatch). -/
def sumLoop (origKeys : List String) : MR → List MR → Except AvgError MR
  | avg, [] => .ok avg
  | avg, r :: rs =>
    if sameKeySet origKeys (keyList r) then sumLoop origKeys (addLoop avg r) rs
    else .error .KeySetMismatch

theorem sumLoop_ok (origKeys : List String) (rs : List MR) (avg : MR)
    (horig : ∀ k, k ∈ origKeys ↔ k ∈ keyList avg)
    (hnd : ∀ r ∈ rs, (keyList r).Nodup)
    (hsk : ∀ r ∈ rs, sameKeySet origKeys (keyList r) = true) :
    ∃ m, sumLoop origKeys avg rs = .ok m ∧ keyList m = keyList avg ∧
      ∀ k, mrLookup m k = mrLookup avg k + (rs.map (fun r => mrLookup r k)).sum := by
  induction rs generalizing avg with
  | nil => exact ⟨avg, rfl, rfl, fun k => by simp⟩
  | cons r rs ih =>
    have hr := hsk r (by simp)
    have hsub : ∀ k ∈ keyList r, k ∈ keyList avg := fun k hk =>
      (horig k).1 ((sameKeySet_iff.1 hr k).2 hk)
    obtain ⟨m, hm, hkeys, hlook⟩ := ih (addLoop avg r)
      (fun k => by rw [keyList_addLoop]; exact horig k)
      (fun r' hr' => hnd r' (by simp [hr']))
      (fun r' hr' => hsk r' (by simp [hr']))
    refine ⟨m, ?_, ?_, ?_⟩
    · simp [sumLoop, hr, hm]
    · rw [hkeys, keyList_addLoop]
    · intro k
      rw [hlook k, addLoop_lookup avg (hnd r (by simp)) hsub k]
      simp [add_assoc]

theorem sumLoop_mismatch {origKeys : List String} {rs : List MR} (avg : MR)
    (h : ∃ r ∈ rs, sameKeySet origKeys (keyList r) = false) :
    sumLoop origKeys avg rs = .error .KeySetMismatch := by
  induction rs generalizing avg with
  | nil => simp at h
  | cons r rs ih =>
    by_cases hr : sameKeySet origKeys (keyList r) = true
    · obtain ⟨r', hr', hfalse⟩ := h
      rcases List.mem_cons.1 hr' with rfl | hmem
      · rw [hr] at hfalse; cases hfalse
      · simp only [sumLoop, hr, if_true]
        exact ih _ ⟨r', hmem, hfalse⟩
    · simp [sumLoop, hr]

/-- The final loop `for key, value in average.items(): average[key] = value / count`:
every value is divided by the trial count. -/
def divAll (m : MR) (count : ℚ) : MR := m.map (fun p => (p.1, p.2 / count))

theorem divAll_lookup (m : MR) (count : ℚ) (k : String) :
    mrLookup (divAll m count) k = mrLookup m k / count := by
  induction m with
  | nil => simp [divAll, mrLookup]
  | cons p rest ih =>
    obtain ⟨k', v⟩ := p
    by_cases hk : k' = k
    · simp [divAll, mrLookup, hk]
    · simpa [divAll, mrLookup, hk] using ih

/-- `BaseWrkBenchmarkSuite.computeAverage`, value-level view: abort on an
empty input, return the single element for one trial, otherwise check key
sets, sum into the first element and divide by the count. -/
def computeAverage : List MR → Except AvgError MR
  | [] => .error .EmptyInput
  | [r] => .ok r
  | r0 :: r1 :: rs =>
    match sumLoop (keyList r0) r0 (r1 :: rs) with
    | .error e => .error e
    | .ok summed => .ok (divAll summed ((r0 :: r1 :: rs).length : ℚ))

/-- C4: for every `N ≥ 1`, `computeAverage` applied to `N` identical
MeasurementResults (as distinct dict objects with equal contents) succeeds
and returns a result whose per-key values equal those of the input — exactly,
in the rational model. -/
theorem C4_computeAverage_identical (N : ℕ) (hN : 1 ≤ N) (m : MR)
    (hnd : (keyList m).Nodup) :
    ∃ m', computeAverage (List.replicate N m) = .ok m' ∧
      ∀ k, mrLookup m' k = mrLookup m k := by
  match N, hN with
  | 1, _ => exact ⟨m, rfl, fun k => rfl⟩
  | (n + 2), _ =>
    have hrep : List.replicate (n + 2) m = m :: m :: List.replicate n m := by
      simp [List.replicate_succ]
    obtain ⟨ms, hms, hkeys, hlook⟩ := sumLoop_ok (keyList m)
      (m :: List.replicate n m) m (fun _ => Iff.rfl)
      (fun r hr => by
        rcases List.mem_cons.1 hr with rfl | hr
        · exact hnd
        · rw [List.eq_of_mem_replicate hr]; exact hnd)
      (fun r hr => by
        rcases List.mem_cons.1 hr with rfl | hr
        · exact sameKeySet_refl _
        · rw [List.eq_of_mem_replicate hr]; exact sameKeySet_refl _)
    refine ⟨divAll ms (((n : ℚ) + 2)), ?_, fun k => ?_⟩
    · rw [hrep]
      simp only [computeAverage, hms]
      have hlen : (((m :: m :: List.replicate n m).length : ℕ) : ℚ) = (n : ℚ) + 2 := by
        push_cast [List.length_cons, List.length_replicate]
        ring
      rw [hlen]
    · rw [divAll_lookup, hlook k]
      simp only [List.map_cons, List.map_replicate, List.sum_cons,
        List.sum_replicate, nsmul_eq_mul]
      have hne : (n : ℚ) + 2 ≠ 0 := by positivity
      field_simp
      ring

/-- Witness for C4: three identical single-key results average to themselves. -/
theorem C4_computeAverage_identical_witness :
    ∃ m', computeAverage (List.replicate 3 [("throughput", (6 : ℚ))]) = .ok m' ∧
      ∀ k, mrLookup m' k = mrLookup [("throughput", (6 : ℚ))] k :=
  C4_computeAverage_identical 3 (by decide) _ (by decide)

/-- C5: `computeAverage` fails with `EmptyInput` on the empty sequence, fails
with `KeySetMismatch` when some element's key set differs from the first
element's, and succeeds with the per-key arithmetic mean exactly when the
input is non-empty and all elements share one key set.  (Two elements have
differing key sets iff some element differs from the first, since key-set
equality is an equivalence.) -/
theorem C5_computeAverage_spec (results : List MR)
    (hnd : ∀ r ∈ results, (keyList r).Nodup) :
    (results = [] → computeAverage results = .error .EmptyInput)
  ∧ (∀ r0 rs, results = r0 :: rs →
      (∃ r ∈ results, sameKeySet (keyList r0) (keyList r) = false) →
      computeAverage results = .error .KeySetMismatch)
  ∧ (∀ r0 rs, results = r0 :: rs →
      (∀ r ∈ results, sameKeySet (keyList r0) (keyList r) = true) →
      ∃ m, computeAverage results = .ok m ∧
        ∀ k, mrLookup m k =
          (results.map (fun r => mrLookup r k)).sum / (results.length : ℚ)) := by
  refine ⟨fun h => by subst h; rfl, ?_, ?_⟩
  · rintro r0 rs rfl ⟨r, hrmem, hrfalse⟩
    rcases List.mem_cons.1 hrmem with rfl | hmem
    · rw [sameKeySet_refl] at hrfalse; cases hrfalse
    · match rs, hmem with
      | r1 :: rs', hmem =>
        simp only [computeAverage]
        rw [sumLoop_mismatch r0 ⟨r, hmem, hrfalse⟩]
  · rintro r0 rs rfl hall
    match rs with
    | [] =>
      refine ⟨r0, rfl, fun k => ?_⟩
      simp
    | r1 :: rs' =>
      obtain ⟨ms, hms, hkeys, hlook⟩ := sumLoop_ok (keyList r0)
        (r1 :: rs') r0 (fun _ => Iff.rfl)
        (fun r hr => hnd r (List.mem_cons_of_mem _ hr))
        (fun r hr => hall r (List.mem_cons_of_mem _ hr))
      refine ⟨divAll ms (((r0 :: r1 :: rs').length : ℚ)), ?_, fun k => ?_⟩
      · simp only [computeAverage, hms]
      · rw [divAll_lookup, hlook k]
        simp

/-- Witness for C5: empty input, a key-set mismatch, and a successful
two-trial average, all at concrete inputs. -/
theorem C5_computeAverage_spec_witness :
    computeAverage ([] : List MR) = .error .EmptyInput
  ∧ computeAverage [[("throughput", (1 : ℚ))], [("99.000%", (2 : ℚ))]] =
      .error .KeySetMismatch
  ∧ (∃ m, computeAverage [[("throughput", (1 : ℚ))], [("throughput", (3 : ℚ))]] =
        .ok m ∧
      ∀ k, mrLookup m k =
        (([[("throughput", (1 : ℚ))], [("throughput", (3 : ℚ))]].map
            (fun r => mrLookup r k)).sum /
          (([[("throughput", (1 : ℚ))], [("throughput", (3 : ℚ))]].length : ℚ)))) := by
  refine ⟨(C5_computeAverage_spec [] (by simp)).1 rfl, ?_, ?_⟩
  · exact (C5_computeAverage_spec _ (by decide)).2.1 _ _ rfl
      ⟨[("99.000%", (2 : ℚ))], by simp, by decide⟩
  · exact (C5_computeAverage_spec _ (by decide)).2.2 _ _ rfl (by decide)

/-! ## Store-based view of `computeAverage`

Python dicts are mutable heap objects: `average = results[0]` aliases the
first element and `average[key] += result[key]` mutates it in place, and
`result[key]` is re-read from the (possibly aliased) dict.  We model the
heap as a list of dict values (`Store`) and the argument list as a list of
addresses into it, so that the same dict object may appear several times. -/

/-- The heap: dict values indexed by address. -/
abbrev Store := List MR

/-- Dereference an address (out-of-range reads give the empty dict; the
modelled runs only use valid addresses). -/
def storeGet (st : Store) (a : ℕ) : MR := st.getD a []

theorem storeGet_set_self (st : Store) (a : ℕ) (m : MR) (h : a < st.length) :
    storeGet (st.set a m) a = m := by
  simp [storeGet, List.getD_eq_getElem?_getD, List.getElem?_set_self', h]

theorem storeGet_set_ne (st : Store) {a b : ℕ} (m : MR) (h : b ≠ a) :
    storeGet (st.set a m) b = storeGet st b := by
  simp [storeGet, List.getD_eq_getElem?_getD,
    List.getElem?_set_ne (fun e => h e.symm)]

theorem storeSet_get_self (st : Store) (a : ℕ) (h : a < st.length) :
    st.set a (storeGet st a) = st := by
  induction st generalizing a with
  | nil => cases h
  | cons x xs ih =>
    cases a with
    | zero => rfl
    | succ n =>
      simp only [List.set, storeGet, List.getD]
      have := ih n (by simpa using h)
      simpa [storeGet] using this

/-- One `for key, value in result.items(): average[key] += result[key]` sweep
on the heap: the key sequence is the result dict's keys (they never change
during the sweep), and `result[key]` is re-read from the current heap, so an
aliased `average`/`result` is read after its own updates. -/
def addLoopS (st : Store) (avgAddr resAddr : ℕ) : Store :=
  (keyList (storeGet st resAddr)).foldl
    (fun s k =>
      s.set avgAddr
        (mrUpdate (storeGet s avgAddr) k
          (mrLookup (storeGet s avgAddr) k + mrLookup (storeGet s resAddr) k)))
    st

/-- The main loop of `computeAverage` on the heap. -/
def sumLoopS (origKeys : List String) (avgAddr : ℕ) :
    Store → List ℕ → Except AvgError Store
  | st, [] => .ok st
  | st, a :: rest =>
    if sameKeySet origKeys (keyList (storeGet st a)) then
      sumLoopS origKeys avgAddr (addLoopS st avgAddr a) rest
    else .error .KeySetMismatch

/-- The final division sweep on the heap. -/
def divAllS (st : Store) (avgAddr : ℕ) (count : ℚ) : Store :=
  st.set avgAddr (divAll (storeGet st avgAddr) count)

/-- `BaseWrkBenchmarkSuite.computeAverage`, heap view: the result is the
address of the first element (which has been updated in place) together with
the final heap. -/
def computeAverageS (st : Store) : List ℕ → Except AvgError (ℕ × Store)
  | [] => .error .EmptyInput
  | [a] => .ok (a, st)
  | a0 :: a1 :: rest =>
    match sumLoopS (keyList (storeGet st a0)) a0 st (a1 :: rest) with
    | .error e => .error e
    | .ok st' => .ok (a0, divAllS st' a0 ((a0 :: a1 :: rest).length : ℚ))

/-- On a dict (unique keys), every item's value is its first-match lookup. -/
theorem mrLookup_of_mem {res : MR} (hnd : (keyList res).Nodup) {p : String × ℚ}
    (hp : p ∈ res) : mrLookup res p.1 = p.2 := by
  induction res with
  | nil => cases hp
  | cons q rest ih =>
    obtain ⟨k0, v0⟩ := q
    simp only [keyList, List.map_cons, List.nodup_cons] at hnd
    rcases List.mem_cons.1 hp with rfl | hmem
    · simp [mrLookup]
    · have hne : k0 ≠ p.1 := by
        intro e
        exact hnd.1 (e ▸ (List.mem_map.2 ⟨p, hmem, rfl⟩))
      simp only [mrLookup, hne, if_false]
      exact ih hnd.2 hmem

/-- The entry-fold of `addLoop` equals the key-fold that re-reads the result
dict, as long as its keys are unique and it is not being mutated. -/
theorem addLoop_eq_keyFold (avg res : MR) (hnd : (keyList res).Nodup) :
    addLoop avg res =
      (keyList res).foldl
        (fun a k => mrUpdate a k (mrLookup a k + mrLookup res k)) avg := by
  have general : ∀ (es : List (String × ℚ)) (avg : MR),
      (∀ p ∈ es, mrLookup res p.1 = p.2) →
      es.foldl (fun a p => mrUpdate a p.1 (mrLookup a p.1 + p.2)) avg =
        (keyList es).foldl
          (fun a k => mrUpdate a k (mrLookup a k + mrLookup res k)) avg := by
    intro es
    induction es with
    | nil => intro avg _; rfl
    | cons p es' ih =>
      intro avg hval
      simp only [keyList, List.map_cons, List.foldl_cons]
      rw [hval p (by simp), ih _ (fun q hq => hval q (by simp [hq]))]
      rfl
  exact general res avg (fun p hp => mrLookup_of_mem hnd hp)

/-- With no aliasing between `avgAddr` and `resAddr`, the heap sweep is the
pure `addLoop` applied at `avgAddr`. -/
theorem addLoopS_eq {st : Store} {a r : ℕ} (ha : a < st.length) (hra : r ≠ a)
    (hnd : (keyList (storeGet st r)).Nodup) :
    addLoopS st a r = st.set a (addLoop (storeGet st a) (storeGet st r)) := by
  rw [addLoop_eq_keyFold _ _ hnd]
  unfold addLoopS
  generalize keyList (storeGet st r) = ks
  induction ks generalizing st with
  | nil => exact (storeSet_get_self st a ha).symm
  | cons k ks ih =>
    simp only [List.foldl_cons]
    have hlen : a < (st.set a (mrUpdate (storeGet st a) k
        (mrLookup (storeGet st a) k + mrLookup (storeGet st r) k))).length := by
      rw [List.length_set]; exact ha
    have hr' : storeGet (st.set a (mrUpdate (storeGet st a) k
        (mrLookup (storeGet st a) k + mrLookup (storeGet st r) k))) r =
        storeGet st r := storeGet_set_ne st _ hra
    have hga : storeGet (st.set a (mrUpdate (storeGet st a) k
        (mrLookup (storeGet st a) k + mrLookup (storeGet st r) k))) a =
        mrUpdate (storeGet st a) k
          (mrLookup (storeGet st a) k + mrLookup (storeGet st r) k) :=
      storeGet_set_self st a _ ha
    rw [ih hlen (by rw [hr']; exact hnd)]
    simp only [hr', hga, List.set_set]

/-- With the average's address not aliased by any later trial, the heap main
loop is the pure `sumLoop` applied at `avgAddr`. -/
theorem sumLoopS_eq (origKeys : List String) {a0 : ℕ} (rest : List ℕ) :
    ∀ (st : Store), a0 < st.length → a0 ∉ rest →
      (∀ a ∈ rest, (keyList (storeGet st a)).Nodup) →
      sumLoopS origKeys a0 st rest =
        Except.map (fun m => st.set a0 m)
          (sumLoop origKeys (storeGet st a0) (rest.map (fun a => storeGet st a))) := by
  induction rest with
  | nil =>
    intro st ha _ _
    simp [sumLoopS, sumLoop, Except.map, storeSet_get_self st a0 ha]
  | cons a rest' ih =>
    intro st ha halias hnd
    have hra : a ≠ a0 := fun e => halias (by rw [← e]; exact List.mem_cons_self _ _)
    have halias' : a0 ∉ rest' := fun h => halias (List.mem_cons_of_mem _ h)
    simp only [sumLoopS, sumLoop, List.map_cons]
    by_cases hsk : sameKeySet origKeys (keyList (storeGet st a)) = true
    · rw [if_pos hsk, if_pos hsk]
      rw [addLoopS_eq ha hra (hnd a (List.mem_cons_self _ _))]
      have hlen1 : a0 < (st.set a0 (addLoop (storeGet st a0) (storeGet st a))).length := by
        rw [List.length_set]; exact ha
      rw [ih _ hlen1 halias' (fun b hb => by
        rw [storeGet_set_ne st _ (fun e => halias' (by rw [← e]; exact hb))]
        exact hnd b (List.mem_cons_of_mem _ hb))]
      have hg0 : storeGet (st.set a0 (addLoop (storeGet st a0) (storeGet st a))) a0 =
          addLoop (storeGet st a0) (storeGet st a) := storeGet_set_self st a0 _ ha
      have hmap : rest'.map
            (fun b => storeGet (st.set a0 (addLoop (storeGet st a0) (storeGet st a))) b) =
          rest'.map (fun b => storeGet st b) :=
        List.map_congr_left (fun b hb =>
          storeGet_set_ne st _ (fun e => halias' (by rw [← e]; exact hb)))
      rw [hg0, hmap]
      cases sumLoop origKeys (addLoop (storeGet st a0) (storeGet st a))
          (rest'.map (fun b => storeGet st b)) with
      | error e => rfl
      | ok m => simp [Except.map, List.set_set]
    · rw [if_neg hsk, if_neg hsk]
      rfl

/-- C10 counterexample: with the first dict aliased again later in the list
(`addrs = [0, 1, 0]`, values 1 and 4 at one key), the first dict ends up
holding 10/3 at that key, while the per-key average of the three inputs is
(1 + 4 + 1)/3 = 2 — so the claim that the first element always ends up
holding the per-key averages is false under aliasing. -/
theorem C10_computeAverageS_counterexample :
    computeAverageS [[("t", (1 : ℚ))], [("t", (4 : ℚ))]] [0, 1, 0] =
      .ok (0, [[("t", (10 / 3 : ℚ))], [("t", (4 : ℚ))]])
  ∧ (([0, 1, 0].map
        (fun a => mrLookup (storeGet [[("t", (1 : ℚ))], [("t", (4 : ℚ))]] a) "t")).sum /
      (([0, 1, 0] : List ℕ).length : ℚ)) = 2
  ∧ (10 / 3 : ℚ) ≠ 2 := by
  refine ⟨by with_unfolding_all rfl, by with_unfolding_all rfl, by norm_num⟩

/-- C10 amended: for two or more trials with identical key sets,
`computeAverage` updates the dict at the first address in place and returns
that address, so a caller aliasing the first element observes the mutation;
and provided no later position aliases the first element, the first dict
afterwards holds exactly the per-key arithmetic means (with aliasing of the
first element, as in the counterexample, the final values can differ from
the per-key means). -/
theorem C10_computeAverageS_spec (st : Store) (a0 : ℕ) (rest : List ℕ)
    (ha0 : a0 < st.length) (hne : rest ≠ []) (halias : a0 ∉ rest)
    (hnd : ∀ a ∈ a0 :: rest, (keyList (storeGet st a)).Nodup)
    (hkeys : ∀ a ∈ rest,
      sameKeySet (keyList (storeGet st a0)) (keyList (storeGet st a)) = true) :
    ∃ m, computeAverageS st (a0 :: rest) = .ok (a0, st.set a0 m) ∧
      ∀ k, mrLookup m k =
        ((a0 :: rest).map (fun a => mrLookup (storeGet st a) k)).sum /
          (((a0 :: rest).length : ℚ)) := by
  match rest, hne, halias, hnd, hkeys with
  | a1 :: rest', _, halias, hnd, hkeys =>
    obtain ⟨ms, hms, hkeysls, hlook⟩ := sumLoop_ok
      (keyList (storeGet st a0))
      ((a1 :: rest').map (fun a => storeGet st a)) (storeGet st a0)
      (fun _ => Iff.rfl)
      (fun r hr => by
        obtain ⟨a, ha, rfl⟩ := List.mem_map.1 hr
        exact hnd _ (List.mem_cons_of_mem _ ha))
      (fun r hr => by
        obtain ⟨a, ha, rfl⟩ := List.mem_map.1 hr
        exact hkeys _ ha)
    refine ⟨divAll ms (((a0 :: a1 :: rest').length : ℚ)), ?_, fun k => ?_⟩
    · simp only [computeAverageS]
      rw [sumLoopS_eq _ _ st ha0 halias
        (fun a ha => hnd a (List.mem_cons_of_mem _ ha)), hms]
      simp only [Except.map]
      unfold divAllS
      rw [storeGet_set_self st a0 _ ha0, List.set_set]
    · rw [divAll_lookup, hlook k]
      simp [List.map_map, Function.comp_def]

/-- Witness for C10 amended, at two distinct single-key dicts. -/
theorem C10_computeAverageS_spec_witness :
    ∃ m, computeAverageS [[("t", (1 : ℚ))], [("t", (5 : ℚ))]] [0, 1] =
        .ok (0, ([[("t", (1 : ℚ))], [("t", (5 : ℚ))]] : Store).set 0 m) ∧
      ∀ k, mrLookup m k =
        (([0, 1].map
            (fun a => mrLookup (storeGet [[("t", (1 : ℚ))], [("t", (5 : ℚ))]] a) k)).sum /
          ((([0, 1] : List ℕ).length : ℚ))) :=
  C10_computeAverageS_spec _ 0 [1] (by decide) (by decide) (by decide)
    (by decide) (by decide)

/-! ## Composite metric (`computePeakThroughputRSS`) -/

/-- A datapoint, restricted to the fields `computePeakThroughputRSS` reads or
writes (`benchmark` standing in for the identity fields carried along by the
`copy.deepcopy`). -/
structure Datapoint where
  benchmark : String
  metricName : String
  metricValue : ℚ
  metricUnit : String
  metricBetter : String
deriving DecidableEq, Inhabited

/-- The scan loop of `computePeakThroughputRSS`: each match overwrites the
variable, so it ends up holding the last datapoint with the given
`metric.name`, if any. -/
def findLastByName (datapoints : List Datapoint) (name : String) : Option Datapoint :=
  datapoints.foldl (fun acc d => if d.metricName = name then some d else acc) none

/-- `BaseMicroserviceBenchmarkSuite.computePeakThroughputRSS`: scan for the
`peak-throughput` and `max-rss` datapoints; if both are present, derive
`ops-per-GB-second` as a deep copy of the throughput datapoint with name,
value (op/s over GB), unit and better-direction replaced; otherwise return
nothing.  Unit conversion can abort on an unknown unit. -/
def computePeakThroughputRSS (datapoints : List Datapoint) :
    Except String (Option Datapoint) :=
  match findLastByName datapoints "peak-throughput",
      findLastByName datapoints "max-rss" with
  | some tputDatapoint, some rssDatapoint =>
    match convertValue tputUnitTable tputDatapoint.metricValue
        tputDatapoint.metricUnit "op/s" with
    | .error e => .error e
    | .ok newtput =>
      match convertValue memUnitTable rssDatapoint.metricValue
          rssDatapoint.metricUnit "GB" with
      | .error e => .error e
      | .ok newrss =>
        .ok (some { tputDatapoint with
          metricName := "ops-per-GB-second",
          metricValue := newtput / newrss,
          metricUnit := "op/GB*s",
          metricBetter := "higher" })
  | _, _ => .ok none

/-- C8: a batch whose `peak-throughput` datapoint is 1000 op/s and whose
`max-rss` datapoint is 2 GB yields `ops-per-GB-second = 500` with
`better = higher`; a batch missing either metric yields nothing, without
error. -/
theorem C8_computePeakThroughputRSS_spec (datapoints : List Datapoint) :
    (∀ t r, findLastByName datapoints "peak-throughput" = some t →
      findLastByName datapoints "max-rss" = some r →
      t.metricValue = 1000 → t.metricUnit = "op/s" →
      r.metricValue = 2 → r.metricUnit = "GB" →
      computePeakThroughputRSS datapoints =
        .ok (some { t with
          metricName := "ops-per-GB-second",
          metricValue := 500,
          metricUnit := "op/GB*s",
          metricBetter := "higher" }))
  ∧ (findLastByName datapoints "peak-throughput" = none →
      computePeakThroughputRSS datapoints = .ok none)
  ∧ (findLastByName datapoints "max-rss" = none →
      computePeakThroughputRSS datapoints = .ok none) := by
  refine ⟨?_, ?_, ?_⟩
  · intro t r ht hr htv htu hrv hru
    have h1 : convertValue tputUnitTable 1000 "op/s" "op/s" = .ok 1000 := by
      with_unfolding_all rfl
    have h2 : convertValue memUnitTable 2 "GB" "GB" = .ok 2 := by
      with_unfolding_all rfl
    simp only [computePeakThroughputRSS, ht, hr, htv, htu, hrv, hru, h1, h2]
    norm_num [Datapoint.mk.injEq]
  · intro h
    simp only [computePeakThroughputRSS, h]
  · intro h
    simp only [computePeakThroughputRSS, h]
    cases findLastByName datapoints "peak-throughput" <;> rfl

/-- Witness for C8 at a concrete two-datapoint batch. -/
theorem C8_computePeakThroughputRSS_spec_witness :
    computePeakThroughputRSS
        [⟨"shopcart", "peak-throughput", 1000, "op/s", "higher"⟩,
         ⟨"shopcart", "max-rss", 2, "GB", "lower"⟩] =
      .ok (some ⟨"shopcart", "ops-per-GB-second", 500, "op/GB*s", "higher"⟩) :=
  (C8_computePeakThroughputRSS_spec _).1
    ⟨"shopcart", "peak-throughput", 1000, "op/s", "higher"⟩
    ⟨"shopcart", "max-rss", 2, "GB", "lower"⟩
    rfl rfl rfl rfl rfl rfl

/-! ## Service probe (`waitForPort`)

The OS state visible to `psutil` is abstracted as a time-indexed process
table: `table t` is the list of processes at the `t`-th polling attempt
(one attempt per second, the first immediate).  Each process carries its
inet sockets; each socket records its local-address port and whether it is
a listening socket (the `status` field `psutil` reports but the code never
reads). -/

/-- One inet socket of a process: local-address port and listening state. -/
structure PortConn where
  laddrPort : ℕ
  isListening : Bool
deriving DecidableEq, Inhabited

/-- A process as seen through `psutil.process_iter()`. -/
structure OsProc where
  pid : ℕ
  connections : List PortConn
deriving DecidableEq, Inhabited

/-- The inner scan of `waitForPort`: the condition is
`conns.laddr.port == port` — the listening state is not consulted. -/
def procMatchesPort (p : OsProc) (port : ℕ) : Bool :=
  p.connections.any (fun c => c.laddrPort == port)

/-- One pass over the process table, returning the first matching process. -/
def findProcWithPort (procs : List OsProc) (port : ℕ) : Option OsProc :=
  procs.find? (fun p => procMatchesPort p port)

/-- The polling loop `for _ in range(timeout + 1)` from attempt `t` with
`r` attempts left (the sleep between attempts is abstracted into the time
index). -/
def waitForPortFrom (table : ℕ → List OsProc) (port : ℕ) : ℕ → ℕ → Option OsProc
  | _, 0 => none
  | t, r + 1 =>
    match findProcWithPort (table t) port with
    | some p => some p
    | none => waitForPortFrom table port (t + 1) r

/-- `BaseMicroserviceBenchmarkSuite.waitForPort(port, timeout)`:
`timeout + 1` attempts, the first immediate, `None` on exhaustion. -/
def waitForPort (table : ℕ → List OsProc) (port : ℕ) (timeout : ℕ) : Option OsProc :=
  waitForPortFrom table port 0 (timeout + 1)

/-- C6 counterexample: a process whose only inet socket on the port is *not*
a listening socket is returned by the very first poll — the code matches any
socket with that local-address port, so with no listening socket present the
claim would require `absent`, but the code returns the process. -/
theorem C6_waitForPort_counterexample :
    waitForPort (fun _ => [⟨17, [⟨8080, false⟩]⟩]) 8080 0 =
      some ⟨17, [⟨8080, false⟩]⟩
  ∧ ∀ c ∈ (⟨17, [⟨8080, false⟩]⟩ : OsProc).connections, c.isListening = false :=
  ⟨rfl, by decide⟩

theorem waitForPortFrom_none (table : ℕ → List OsProc) (port : ℕ) :
    ∀ (r s : ℕ),
      (∀ t, s ≤ t → t < s + r → findProcWithPort (table t) port = none) →
      waitForPortFrom table port s r = none := by
  intro r
  induction r with
  | zero => intro s _; rfl
  | succ n ih =>
    intro s h
    have h0 : findProcWithPort (table s) port = none := h s le_rfl (by omega)
    simp only [waitForPortFrom, h0]
    exact ih (s + 1) (fun t ht1 ht2 => h t (by omega) (by omega))

theorem waitForPortFrom_first (table : ℕ → List OsProc) (port : ℕ) :
    ∀ (r s t0 : ℕ), s ≤ t0 → t0 < s + r →
      (∀ t, s ≤ t → t < t0 → findProcWithPort (table t) port = none) →
      ∀ p, findProcWithPort (table t0) port = some p →
        waitForPortFrom table port s r = some p := by
  intro r
  induction r with
  | zero => intro s t0 h1 h2 _ p _; omega
  | succ n ih =>
    intro s t0 h1 h2 hnone p hp
    by_cases hs : t0 = s
    · subst hs
      simp only [waitForPortFrom, hp]
    · have hfirst : findProcWithPort (table s) port = none :=
        hnone s le_rfl (by omega)
      simp only [waitForPortFrom, hfirst]
      exact ih (s + 1) t0 (by omega) (by omega)
        (fun t ht1 ht2 => hnone t (by omega) ht2) p hp

/-- C6 amended: `waitForPort` makes at most `timeout + 1` polls, the first
immediate; it returns `none` when no process has an inet socket whose
local-address port equals `port` at any of those polls, and otherwise
returns, at the earliest poll with a match, the first process in table
order with such a socket — regardless of whether the socket is listening. -/
theorem C6_waitForPort_spec (table : ℕ → List OsProc) (port timeout : ℕ) :
    ((∀ t, t ≤ timeout → findProcWithPort (table t) port = none) →
      waitForPort table port timeout = none)
  ∧ (∀ t0, t0 ≤ timeout →
      (∀ t, t < t0 → findProcWithPort (table t) port = none) →
      ∀ p, findProcWithPort (table t0) port = some p →
        waitForPort table port timeout = some p) := by
  constructor
  · intro h
    exact waitForPortFrom_none table port (timeout + 1) 0
      (fun t ht1 ht2 => h t (by omega))
  · intro t0 ht0 hnone p hp
    exact waitForPortFrom_first table port (timeout + 1) 0 t0 (by omega) (by omega)
      (fun t _ ht2 => hnone t ht2) p hp

/-- Witness for C6 amended: the service binds its port at the second poll. -/
theorem C6_waitForPort_spec_witness :
    waitForPort (fun t => if t = 0 then [] else [⟨3, [⟨8080, true⟩]⟩]) 8080 5 =
      some ⟨3, [⟨8080, true⟩]⟩ :=
  (C6_waitForPort_spec (fun t => if t = 0 then [] else [⟨3, [⟨8080, true⟩]⟩])
      8080 5).2 1 (by omega)
    (fun t ht => by
      have h0 : t = 0 := by omega
      subst h0
      rfl)
    _ rfl

/-! ## Wrk workload configuration (`loadConfiguration`) -/

/-- The value of a workload group (`throughput` or `latency`) in the parsed
JSON file: its five fields, each possibly absent
(`requests-per-second` is read with `optional=True`). -/
structure WrkGroup where
  script : Option JVal
  warmupRequestsPerSecond : Option JVal
  warmupDuration : Option JVal
  requestsPerSecond : Option JVal
  duration : Option JVal
deriving Inhabited

/-- The parsed configuration file, as far as `loadConfiguration` reads it:
the three top-level entries and the requested group. -/
structure WrkTopConfig where
  targetUrl : Option JVal
  connections : Option JVal
  threads : Option JVal
  group : Option WrkGroup
deriving Inhabited

/-- One element of the result list of `loadConfiguration`. -/
structure WrkScriptConfig where
  targetUrl : JVal
  connections : JVal
  threads : JVal
  script : JVal
  warmupRequestsPerSecond : JVal
  warmupDuration : JVal
  duration : JVal
  requestsPerSecond : Option JVal
deriving Inhabited

/-- Failure modes of `loadConfiguration`: `mx.abort` with a message
(configuration errors), or an uncaught Python `TypeError`/`IndexError`
raised by `requestsPerSecond[i]`, whose shape is never validated. -/
inductive LoadError
  | configAbort (msg : String)
  | typeError
  | indexError
deriving DecidableEq

/-- `readConfig(config, key)` for a mandatory key. -/
def readConfig (v : Option JVal) (key : String) : Except LoadError JVal :=
  match v with
  | some j => .ok j
  | none =>
    .error (.configAbort ("Mandatory entry " ++ key ++
      " not specified in Wrk configuration."))

/-- The abort message of the two cardinality checks. -/
def cardMismatchMsg : String :=
  "The configuration elements 'script', 'warmup-requests-per-second', " ++
    "'warmup-duration', and 'duration' must have the same number of elements."

/-- `value[i]` in Python: `IndexError` past the end of a list, `TypeError`
when the value is not a list. -/
def jIndex : JVal → ℕ → Except LoadError JVal
  | .list xs, i =>
    match xs.get? i with
    | some v => .ok v
    | none => .error .indexError
  | .num _, _ => .error .typeError
  | .str _, _ => .error .typeError
  | .jbool _, _ => .error .typeError

/-- The `if requestsPerSecond: result["requests-per-second"] = requestsPerSecond`
step of the scalar branch: the key is set only for a present, truthy value. -/
def keptRequestsPerSecond : Option JVal → Option JVal
  | some r => if jTruthy r then some r else none
  | none => none

/-- One iteration of the `for i in range(count)` loop of the list branch. -/
def buildRecord (targetUrl connections threads : JVal)
    (scripts warmupRPSs warmupDurations durations : List JVal)
    (requestsPerSecond : Option JVal) (i : ℕ) :
    Except LoadError WrkScriptConfig :=
  match jIndex (.list scripts) i, jIndex (.list warmupRPSs) i,
      jIndex (.list warmupDurations) i, jIndex (.list durations) i with
  | .ok s, .ok w, .ok wd, .ok d =>
    match requestsPerSecond with
    | some r =>
      if jTruthy r then
        match jIndex r i with
        | .ok ri => .ok ⟨targetUrl, connections, threads, s, w, wd, d, some ri⟩
        | .error e => .error e
      else .ok ⟨targetUrl, connections, threads, s, w, wd, d, none⟩
    | none => .ok ⟨targetUrl, connections, threads, s, w, wd, d, none⟩
  | _, _, _, _ => .error .indexError

/-- The whole `for i in range(count)` loop. -/
def buildRecords (targetUrl connections threads : JVal)
    (scripts warmupRPSs warmupDurations durations : List JVal)
    (requestsPerSecond : Option JVal) :
    List ℕ → Except LoadError (List WrkScriptConfig)
  | [] => .ok []
  | i :: is =>
    match buildRecord targetUrl connections threads scripts warmupRPSs
        warmupDurations durations requestsPerSecond i with
    | .error e => .error e
    | .ok r =>
      match buildRecords targetUrl connections threads scripts warmupRPSs
          warmupDurations durations requestsPerSecond is with
      | .error e => .error e
      | .ok rs => .ok (r :: rs)

/-- `BaseWrkBenchmarkSuite.loadConfiguration(groupKey)`, applied to the
parsed JSON file: mandatory reads, the scalar-ness check over the four
parallel fields, then either the single scalar record or the per-script
records (with the list-length check over the same four fields).
`requests-per-second` takes part in neither cardinality check. -/
def loadConfiguration (groupKey : String) (config : WrkTopConfig) :
    Except LoadError (List WrkScriptConfig) :=
  match readConfig config.targetUrl "target-url" with
  | .error e => .error e
  | .ok targetUrl =>
  match readConfig config.connections "connections" with
  | .error e => .error e
  | .ok connections =>
  match readConfig config.threads "threads" with
  | .error e => .error e
  | .ok threads =>
  match config.group with
  | none =>
    .error (.configAbort ("Mandatory entry " ++ groupKey ++
      " not specified in Wrk configuration."))
  | some group =>
  match readConfig group.script "script" with
  | .error e => .error e
  | .ok script =>
  match readConfig group.warmupRequestsPerSecond "warmup-requests-per-second" with
  | .error e => .error e
  | .ok warmupRequestsPerSecond =>
  match readConfig group.warmupDuration "warmup-duration" with
  | .error e => .error e
  | .ok warmupDuration =>
  match readConfig group.duration "duration" with
  | .error e => .error e
  | .ok duration =>
  if isScalarValue script ≠ isScalarValue warmupRequestsPerSecond ∨
      isScalarValue script ≠ isScalarValue warmupDuration ∨
      isScalarValue script ≠ isScalarValue duration then
    .error (.configAbort cardMismatchMsg)
  else if isScalarValue script then
    .ok [⟨targetUrl, connections, threads, script, warmupRequestsPerSecond,
      warmupDuration, duration, keptRequestsPerSecond group.requestsPerSecond⟩]
  else
    match script, warmupRequestsPerSecond, warmupDuration, duration with
    | .list scripts, .list warmupRPSs, .list warmupDurations, .list durations =>
      if scripts.length ≠ warmupRPSs.length ∨
          scripts.length ≠ warmupDurations.length ∨
          scripts.length ≠ durations.length then
        .error (.configAbort cardMismatchMsg)
      else
        buildRecords targetUrl connections threads scripts warmupRPSs
          warmupDurations durations group.requestsPerSecond
          (List.range scripts.length)
    | _, _, _, _ => .error .typeError

theorem jIndex_list_ok {xs : List JVal} {i : ℕ} (h : i < xs.length) :
    jIndex (.list xs) i = .ok (xs.getD i default) := by
  induction xs generalizing i with
  | nil => cases h
  | cons x xs ih =>
    cases i with
    | zero => rfl
    | succ n =>
      have := @ih n (by simpa using h)
      simpa [jIndex, List.getD] using this

theorem buildRecord_ok (tu cn th : JVal) (ss ws wds ds : List JVal)
    (rps : Option JVal) (i : ℕ) (hi : i < ss.length)
    (hw : ss.length = ws.length) (hwd : ss.length = wds.length)
    (hd : ss.length = ds.length) :
    ((rps = none ∨ (∃ r, rps = some r ∧ jTruthy r = false)) →
      buildRecord tu cn th ss ws wds ds rps i =
        .ok ⟨tu, cn, th, ss.getD i default, ws.getD i default,
          wds.getD i default, ds.getD i default, none⟩)
  ∧ (∀ rs, rps = some (.list rs) → rs ≠ [] → ss.length ≤ rs.length →
      buildRecord tu cn th ss ws wds ds rps i =
        .ok ⟨tu, cn, th, ss.getD i default, ws.getD i default,
          wds.getD i default, ds.getD i default, some (rs.getD i default)⟩) := by
  constructor
  · rintro (rfl | ⟨r, rfl, hfalse⟩)
    · simp [buildRecord, jIndex_list_ok hi, jIndex_list_ok (hw ▸ hi),
        jIndex_list_ok (hwd ▸ hi), jIndex_list_ok (hd ▸ hi)]
    · simp [buildRecord, jIndex_list_ok hi, jIndex_list_ok (hw ▸ hi),
        jIndex_list_ok (hwd ▸ hi), jIndex_list_ok (hd ▸ hi), hfalse]
  · rintro rs rfl hne hlen
    have htruthy : jTruthy (.list rs) = true := by
      simp [jTruthy, hne]
    simp [buildRecord, jIndex_list_ok hi, jIndex_list_ok (hw ▸ hi),
      jIndex_list_ok (hwd ▸ hi), jIndex_list_ok (hd ▸ hi), htruthy,
      jIndex_list_ok (lt_of_lt_of_le hi hlen)]

theorem buildRecords_ok (tu cn th : JVal) (ss ws wds ds : List JVal)
    (rps : Option JVal) (f : ℕ → WrkScriptConfig) :
    ∀ is : List ℕ,
      (∀ i ∈ is, buildRecord tu cn th ss ws wds ds rps i = .ok (f i)) →
      buildRecords tu cn th ss ws wds ds rps is = .ok (is.map f) := by
  intro is
  induction is with
  | nil => intro _; rfl
  | cons i is ih =>
    intro h
    simp only [buildRecords, h i (by simp),
      ih (fun j hj => h j (by simp [hj])), List.map_cons]

theorem loadConfiguration_scalar (groupKey : String) (tu cn th script w wd d : JVal)
    (rps : Option JVal) (hS : isScalarValue script = true)
    (hW : isScalarValue w = true) (hWD : isScalarValue wd = true)
    (hD : isScalarValue d = true) :
    loadConfiguration groupKey ⟨some tu, some cn, some th,
        some ⟨some script, some w, some wd, rps, some d⟩⟩ =
      .ok [⟨tu, cn, th, script, w, wd, d, keptRequestsPerSecond rps⟩] := by
  simp [loadConfiguration, readConfig, hS, hW, hWD, hD]

theorem loadConfiguration_list (groupKey : String) (tu cn th : JVal)
    (ss ws wds ds : List JVal) (rps : Option JVal) :
    loadConfiguration groupKey ⟨some tu, some cn, some th,
        some ⟨some (.list ss), some (.list ws), some (.list wds), rps,
          some (.list ds)⟩⟩ =
      if ss.length ≠ ws.length ∨ ss.length ≠ wds.length ∨
          ss.length ≠ ds.length then
        .error (.configAbort cardMismatchMsg)
      else
        buildRecords tu cn th ss ws wds ds rps (List.range ss.length) := by
  simp [loadConfiguration, readConfig, isScalarValue]

/-- C3 counterexample: a group whose four parallel fields are scalars
(cardinality 1) but whose `requests-per-second` is a two-element list is
*not* rejected — `loadConfiguration` returns a single record carrying the
whole two-element list, although the claim requires a fatal configuration
abort for this cardinality mismatch. -/
theorem C3_loadConfiguration_counterexample :
    loadConfiguration "latency"
        ⟨some (.str "http://localhost:8080"), some (.num 16), some (.num 4),
          some ⟨some (.str "s.lua"), some (.num 100), some (.str "30s"),
            some (.list [.num 10, .num 20]), some (.str "60s")⟩⟩ =
      .ok [⟨.str "http://localhost:8080", .num 16, .num 4, .str "s.lua",
        .num 100, .str "30s", .str "60s", some (.list [.num 10, .num 20])⟩]
  ∧ ∀ msg, loadConfiguration "latency"
        ⟨some (.str "http://localhost:8080"), some (.num 16), some (.num 4),
          some ⟨some (.str "s.lua"), some (.num 100), some (.str "30s"),
            some (.list [.num 10, .num 20]), some (.str "60s")⟩⟩ ≠
      .error (.configAbort msg) := by
  have h : loadConfiguration "latency"
      ⟨some (.str "http://localhost:8080"), some (.num 16), some (.num 4),
        some ⟨some (.str "s.lua"), some (.num 100), some (.str "30s"),
          some (.list [.num 10, .num 20]), some (.str "60s")⟩⟩ =
      .ok [⟨.str "http://localhost:8080", .num 16, .num 4, .str "s.lua",
        .num 100, .str "30s", .str "60s", some (.list [.num 10, .num 20])⟩] := by
    with_unfolding_all rfl
  exact ⟨h, fun msg hne => by rw [h] at hne; exact Except.noConfusion hne⟩

/-- C3 amended: `loadConfiguration` aborts with the configuration error
exactly on a cardinality mismatch among the *four* fields `script`,
`warmup-requests-per-second`, `warmup-duration` and `duration`
(`requests-per-second` takes part in no cardinality check); when those four
agree it returns one record per script built from the i-th elements, and the
scalar encoding coincides with the length-1 list encoding whenever
`requests-per-second` is absent or truthy (a falsy value such as 0 is
dropped by the scalar encoding but kept by the list encoding). -/
theorem C3_loadConfiguration_spec (groupKey : String) (tu cn th script w wd d : JVal)
    (rps : Option JVal) :
    ((isScalarValue script ≠ isScalarValue w ∨
        isScalarValue script ≠ isScalarValue wd ∨
        isScalarValue script ≠ isScalarValue d) →
      loadConfiguration groupKey ⟨some tu, some cn, some th,
          some ⟨some script, some w, some wd, rps, some d⟩⟩ =
        .error (.configAbort cardMismatchMsg))
  ∧ (isScalarValue script = true → isScalarValue w = true →
      isScalarValue wd = true → isScalarValue d = true →
      loadConfiguration groupKey ⟨some tu, some cn, some th,
          some ⟨some script, some w, some wd, rps, some d⟩⟩ =
        .ok [⟨tu, cn, th, script, w, wd, d, keptRequestsPerSecond rps⟩])
  ∧ (∀ ss ws wds ds, script = .list ss → w = .list ws → wd = .list wds →
      d = .list ds →
      (ss.length ≠ ws.length ∨ ss.length ≠ wds.length ∨
        ss.length ≠ ds.length) →
      loadConfiguration groupKey ⟨some tu, some cn, some th,
          some ⟨some script, some w, some wd, rps, some d⟩⟩ =
        .error (.configAbort cardMismatchMsg))
  ∧ (∀ ss ws wds ds, script = .list ss → w = .list ws → wd = .list wds →
      d = .list ds → ss.length = ws.length → ss.length = wds.length →
      ss.length = ds.length →
      (rps = none ∨ (∃ r, rps = some r ∧ jTruthy r = false)) →
      loadConfiguration groupKey ⟨some tu, some cn, some th,
          some ⟨some script, some w, some wd, rps, some d⟩⟩ =
        .ok ((List.range ss.length).map (fun i =>
          ⟨tu, cn, th, ss.getD i default, ws.getD i default,
            wds.getD i default, ds.getD i default, none⟩)))
  ∧ (∀ ss ws wds ds rs, script = .list ss → w = .list ws → wd = .list wds →
      d = .list ds → ss.length = ws.length → ss.length = wds.length →
      ss.length = ds.length → rps = some (.list rs) → rs ≠ [] →
      ss.length ≤ rs.length →
      loadConfiguration groupKey ⟨some tu, some cn, some th,
          some ⟨some script, some w, some wd, rps, some d⟩⟩ =
        .ok ((List.range ss.length).map (fun i =>
          ⟨tu, cn, th, ss.getD i default, ws.getD i default,
            wds.getD i default, ds.getD i default,
            some (rs.getD i default)⟩)))
  ∧ (isScalarValue script = true → isScalarValue w = true →
      isScalarValue wd = true → isScalarValue d = true →
      (rps = none ∨ (∃ r, rps = some r ∧ jTruthy r = true)) →
      loadConfiguration groupKey ⟨some tu, some cn, some th,
          some ⟨some (.list [script]), some (.list [w]), some (.list [wd]),
            rps.map (fun r => .list [r]), some (.list [d])⟩⟩ =
        loadConfiguration groupKey ⟨some tu, some cn, some th,
          some ⟨some script, some w, some wd, rps, some d⟩⟩) := by
  refine ⟨?_, ?_, ?_, ?_, ?_, ?_⟩
  · intro h
    simp only [loadConfiguration, readConfig]
    rw [if_pos h]
  · intro hS hW hWD hD
    exact loadConfiguration_scalar groupKey tu cn th script w wd d rps hS hW hWD hD
  · rintro ss ws wds ds rfl rfl rfl rfl h
    rw [loadConfiguration_list, if_pos h]
  · rintro ss ws wds ds rfl rfl rfl rfl h1 h2 h3 hrps
    rw [loadConfiguration_list, if_neg (by omega)]
    exact buildRecords_ok tu cn th ss ws wds ds rps _ (List.range ss.length)
      (fun i hi =>
        (buildRecord_ok tu cn th ss ws wds ds rps i
          (List.mem_range.1 hi) h1 h2 h3).1 hrps)
  · rintro ss ws wds ds rs rfl rfl rfl rfl h1 h2 h3 rfl hne hlen
    rw [loadConfiguration_list, if_neg (by omega)]
    exact buildRecords_ok tu cn th ss ws wds ds _ _ (List.range ss.length)
      (fun i hi =>
        (buildRecord_ok tu cn th ss ws wds ds _ i
          (List.mem_range.1 hi) h1 h2 h3).2 rs rfl hne hlen)
  · intro hS hW hWD hD hrps
    rcases hrps with rfl | ⟨r, rfl, htrue⟩
    · rw [loadConfiguration_scalar groupKey tu cn th script w wd d none
        hS hW hWD hD]
      rw [show (none : Option JVal).map (fun r => JVal.list [r]) = none from rfl]
      rw [loadConfiguration_list, if_neg (by simp)]
      simp only [List.length_singleton]
      rw [buildRecords_ok tu cn th [script] [w] [wd] [d] none
        (fun i => ⟨tu, cn, th, [script].getD i default, [w].getD i default,
          [wd].getD i default, [d].getD i default, none⟩) (List.range 1)
        (fun i hi =>
          (buildRecord_ok tu cn th [script] [w] [wd] [d] none i
            (List.mem_range.1 hi) rfl rfl rfl).1 (Or.inl rfl))]
      rfl
    · rw [loadConfiguration_scalar groupKey tu cn th script w wd d (some r)
        hS hW hWD hD]
      rw [show (some r).map (fun r => JVal.list [r]) = some (.list [r]) from rfl]
      rw [loadConfiguration_list, if_neg (by simp)]
      simp only [List.length_singleton]
      rw [buildRecords_ok tu cn th [script] [w] [wd] [d] (some (.list [r]))
        (fun i => ⟨tu, cn, th, [script].getD i default, [w].getD i default,
          [wd].getD i default, [d].getD i default,
          some ([r].getD i default)⟩) (List.range 1)
        (fun i hi =>
          (buildRecord_ok tu cn th [script] [w] [wd] [d] (some (.list [r])) i
            (List.mem_range.1 hi) rfl rfl rfl).2 [r] rfl (by simp) (by simp))]
      simp [keptRequestsPerSecond, htrue,
        show List.range 1 = [0] from rfl]

/-- Witness for C3 amended: a concrete scalar-encoded throughput group. -/
theorem C3_loadConfiguration_spec_witness :
    loadConfiguration "throughput"
        ⟨some (.str "http://localhost:8080"), some (.num 8), some (.num 2),
          some ⟨some (.str "a.lua"), some (.num 50), some (.str "30s"),
            none, some (.str "60s")⟩⟩ =
      .ok [⟨.str "http://localhost:8080", .num 8, .num 2, .str "a.lua",
        .num 50, .str "30s", .str "60s", keptRequestsPerSecond none⟩] :=
  (C3_loadConfiguration_spec "throughput" (.str "http://localhost:8080")
    (.num 8) (.num 2) (.str "a.lua") (.num 50) (.str "30s") (.str "60s")
    none).2.1 rfl rfl rfl rfl

/-! ## Latency target rate (`testLatency` / `calibrateLatencyTest`) -/

/-- The per-script target-rate selection in the measurement loop of
`BaseWrkBenchmarkSuite.testLatency`: a present truthy `requests-per-second`
is used as-is (`configs[i].get(...)` is falsy for 0 as well as for a missing
key); otherwise the rate is `int(self.calibratedThroughput[i] * 0.75)` —
Python `int()` truncation of 75% of the maximum throughput stored by the
preceding `calibrateLatencyTest` run. -/
def latencyExpectedRate (config : WrkScriptConfig) (calibrated : ℚ) : JVal :=
  match config.requestsPerSecond with
  | some r =>
    if jTruthy r then r else .num ((pyInt (calibrated * (0.75 : ℚ)) : ℤ) : ℚ)
  | none => .num ((pyInt (calibrated * (0.75 : ℚ)) : ℤ) : ℚ)

/-- The target rates driven by `testLatency`, one per script of the latency
group, with `calibratedThroughput` the per-script maximum throughputs stored
by `calibrateLatencyTest` (the code indexes it only when no fixed rate is
configured; out-of-range reads default to 0 here and are excluded by the
theorems' hypotheses). -/
def testLatencyRates (configs : List WrkScriptConfig)
    (calibratedThroughput : List ℚ) : List JVal :=
  (List.range configs.length).map (fun i =>
    latencyExpectedRate (configs.getD i default) (calibratedThroughput.getD i 0))

/-- C1 counterexample: with no configured rate and a measured maximum
throughput of 1001 op/s, the code drives latency at
`int(1001 * 0.75) = 750`, whereas `round(0.75 * 1001) = 751`. -/
theorem C1_latencyRate_counterexample :
    testLatencyRates
        [⟨.str "u", .num 16, .num 4, .str "s.lua", .num 100, .str "30s",
          .str "60s", none⟩] [1001] = [.num 750]
  ∧ round ((1001 : ℚ) * (0.75 : ℚ)) = (751 : ℤ)
  ∧ (JVal.num 750 ≠ JVal.num 751) := by
  refine ⟨by with_unfolding_all rfl, by with_unfolding_all rfl, ?_⟩
  intro h
  cases h

theorem testLatencyRates_getD (configs : List WrkScriptConfig)
    (calibratedThroughput : List ℚ) {i : ℕ} (hi : i < configs.length) :
    (testLatencyRates configs calibratedThroughput).getD i default =
      latencyExpectedRate (configs.getD i default)
        (calibratedThroughput.getD i 0) := by
  unfold testLatencyRates
  rw [List.getD_eq_getElem?_getD, List.getElem?_map, List.getElem?_range hi]
  rfl

/-- C1 amended: for every script of the latency group with a configured
truthy fixed rate, that rate is used; for every other script the target rate
is the *truncation* `int(calibratedThroughput[i] * 0.75)` — which, the
throughput being nonnegative, is `⌊0.75 * measured⌋`, not
`round(0.75 * measured)`.  (At a measured maximum of 1000 op/s both give
750, as the claim's example states.) -/
theorem C1_latencyRate_spec (configs : List WrkScriptConfig)
    (calibratedThroughput : List ℚ) (i : ℕ) (hi : i < configs.length) :
    (∀ r, (configs.getD i default).requestsPerSecond = some r →
      jTruthy r = true →
      (testLatencyRates configs calibratedThroughput).getD i default = r)
  ∧ (((configs.getD i default).requestsPerSecond = none ∨
      (∃ r, (configs.getD i default).requestsPerSecond = some r ∧
        jTruthy r = false)) →
      (testLatencyRates configs calibratedThroughput).getD i default =
        .num ((pyInt ((calibratedThroughput.getD i 0) * (0.75 : ℚ)) : ℤ) : ℚ))
  ∧ (0 ≤ calibratedThroughput.getD i 0 →
      pyInt ((calibratedThroughput.getD i 0) * (0.75 : ℚ)) =
        ⌊(calibratedThroughput.getD i 0) * (0.75 : ℚ)⌋) := by
  refine ⟨?_, ?_, ?_⟩
  · intro r hr htrue
    rw [testLatencyRates_getD configs calibratedThroughput hi]
    unfold latencyExpectedRate
    rw [hr]
    simp [htrue]
  · intro hcase
    rw [testLatencyRates_getD configs calibratedThroughput hi]
    unfold latencyExpectedRate
    rcases hcase with hnone | ⟨r, hr, hfalse⟩
    · rw [hnone]
    · rw [hr]
      simp [hfalse]
  · intro hpos
    unfold pyInt
    rw [if_pos (by positivity)]

/-- Witness for C1 amended: one script, no fixed rate, measured maximum
1000 op/s: the driven rate is `int(1000 * 0.75) = 750`. -/
theorem C1_latencyRate_spec_witness :
    (testLatencyRates
        [⟨.str "u", .num 16, .num 4, .str "s.lua", .num 100, .str "30s",
          .str "60s", none⟩] [1000]).getD 0 default =
      .num ((pyInt ((([(1000 : ℚ)].getD 0 0) * (0.75 : ℚ))) : ℤ) : ℚ)
  ∧ JVal.num ((pyInt ((([(1000 : ℚ)].getD 0 0) * (0.75 : ℚ))) : ℤ) : ℚ) =
      .num 750 :=
  ⟨(C1_latencyRate_spec
      [⟨.str "u", .num 16, .num 4, .str "s.lua", .num 100, .str "30s",
        .str "60s", none⟩] [1000] 0 (by decide)).2.1 (Or.inl rfl),
   by with_unfolding_all rfl⟩

/-! ## Stage controller (`run_stage` / `validateReturnCode`)

The service process runs in the foreground while the measurement runs in a
background thread; `mx.run`'s return value for the `i`-th service invocation
of a stage is abstracted as `codes i` (with `nonZeroIsFatal` handled by the
caller as non-fatal).  Image stages delegate to the superclass, which runs
the build command and returns its exit code verbatim (`imageCode`). -/

/-- The five known benchmark stages. -/
inductive Stage
  | agent
  | instrument_image
  | instrument_run
  | image
  | run
deriving DecidableEq

/-- `BaseMicroserviceBenchmarkSuite.validateReturnCode`: `retcode == 143`. -/
def validateReturnCode (retcode : ℤ) : Bool := retcode == 143

/-- `any([c.get("requests-per-second") for c in ...])` for one record:
present and truthy. -/
def hasFixedRate (c : WrkScriptConfig) : Bool :=
  match c.requestsPerSecond with
  | some r => jTruthy r
  | none => false

/-- One measurement phase of the `run` stage: run the service (exit code
`codes i`), join the background thread, then validate the exit code;
any non-143 code hits `mx.abort`. -/
def measurePhase (codes : ℕ → ℤ) (i : ℕ) : Except String ℤ :=
  if validateReturnCode (codes i) then .ok (codes i)
  else
    .error ("The server application unexpectedly ended with return code " ++
      toString (codes i))

/-- The `for _ in range(self.NumMeasureTimeToFirstResponse)` loop: each
iteration is one validated service invocation. -/
def ttfrLoop (codes : ℕ → ℤ) : ℕ → ℕ → Except String Unit
  | _, 0 => .ok ()
  | start, n + 1 =>
    match measurePhase codes start with
    | .error e => .error e
    | .ok _ => ttfrLoop codes (start + 1) n

/-- `BaseMicroserviceBenchmarkSuite.run_stage`: image stages run the build
command and return its exit code; the `run` stage performs the validated
phases time-to-first-response (×`numTTFR`), startup, peak, then — when
latency is measured — calibration (only if no script has a fixed rate) and
latency; the `agent` and `instrument-run` stages run the peak workload once
and return the exit code *without* validating it. -/
def run_stage (stage : Stage) (numTTFR : ℕ) (measureLatency : Bool)
    (latencyConfigs : List WrkScriptConfig) (codes : ℕ → ℤ) (imageCode : ℤ) :
    Except String ℤ :=
  match stage with
  | .image => .ok imageCode
  | .instrument_image => .ok imageCode
  | .run =>
    match ttfrLoop codes 0 numTTFR with
    | .error e => .error e
    | .ok _ =>
    match measurePhase codes numTTFR with
    | .error e => .error e
    | .ok _ =>
    match measurePhase codes (numTTFR + 1) with
    | .error e => .error e
    | .ok peakCode =>
    if measureLatency then
      if latencyConfigs.any hasFixedRate then
        match measurePhase codes (numTTFR + 2) with
        | .error e => .error e
        | .ok latencyCode => .ok latencyCode
      else
        match measurePhase codes (numTTFR + 2) with
        | .error e => .error e
        | .ok _ =>
        match measurePhase codes (numTTFR + 3) with
        | .error e => .error e
        | .ok latencyCode => .ok latencyCode
    else .ok peakCode
  | .agent => .ok (codes 0)
  | .instrument_run => .ok (codes 0)

/-- Number of service invocations of the `run` stage. -/
def runStagePhaseCount (numTTFR : ℕ) (measureLatency : Bool)
    (latencyConfigs : List WrkScriptConfig) : ℕ :=
  numTTFR + 2 +
    (if measureLatency then
      (if latencyConfigs.any hasFixedRate then 1 else 2) else 0)

/-- C2 counterexample: in the measuring stage `agent`, a service exit code
of 0 — which `validateReturnCode` rejects — is returned without any abort:
the exit code is not validated outside the `run` stage. -/
theorem C2_run_stage_counterexample :
    run_stage .agent 10 true [] (fun _ => 0) 0 = .ok 0
  ∧ validateReturnCode 0 = false :=
  ⟨rfl, rfl⟩

theorem measurePhase_ok {codes : ℕ → ℤ} {i : ℕ} (h : codes i = 143) :
    measurePhase codes i = .ok 143 := by
  simp [measurePhase, validateReturnCode, h]

theorem measurePhase_bad {codes : ℕ → ℤ} {i : ℕ} (h : codes i ≠ 143) :
    measurePhase codes i =
      .error ("The server application unexpectedly ended with return code " ++
        toString (codes i)) := by
  simp [measurePhase, validateReturnCode, h]

theorem ttfrLoop_ok (codes : ℕ → ℤ) :
    ∀ (n start : ℕ), (∀ j, start ≤ j → j < start + n → codes j = 143) →
      ttfrLoop codes start n = .ok () := by
  intro n
  induction n with
  | zero => intro start _; rfl
  | succ m ih =>
    intro start h
    simp only [ttfrLoop, measurePhase_ok (h start le_rfl (by omega))]
    exact ih (start + 1) (fun j hj1 hj2 => h j (by omega) (by omega))

theorem ttfrLoop_bad (codes : ℕ → ℤ) :
    ∀ (n start i0 : ℕ), start ≤ i0 → i0 < start + n → codes i0 ≠ 143 →
      (∀ j, start ≤ j → j < i0 → codes j = 143) →
      ttfrLoop codes start n =
        .error ("The server application unexpectedly ended with return code " ++
          toString (codes i0)) := by
  intro n
  induction n with
  | zero => intro start i0 h1 h2 _ _; omega
  | succ m ih =>
    intro start i0 h1 h2 hbad hgood
    by_cases hs : i0 = start
    · subst hs
      simp only [ttfrLoop, measurePhase_bad hbad]
    · simp only [ttfrLoop, measurePhase_ok (hgood start le_rfl (by omega))]
      exact ih (start + 1) i0 (by omega) (by omega) hbad
        (fun j hj1 hj2 => hgood j (by omega) hj2)

/-- C2 amended: exit-code validation against the graceful-termination code
143 happens after every phase of the `run` stage — the first phase whose
service invocation exits with any other code aborts the whole run, naming
that code — while the measuring stages `agent` and `instrument-run` return
the service's exit code without validating it at all. -/
theorem C2_run_stage_spec (numTTFR : ℕ) (measureLatency : Bool)
    (latencyConfigs : List WrkScriptConfig) (codes : ℕ → ℤ) (imageCode : ℤ) :
    run_stage .agent numTTFR measureLatency latencyConfigs codes imageCode =
      .ok (codes 0)
  ∧ run_stage .instrument_run numTTFR measureLatency latencyConfigs codes
      imageCode = .ok (codes 0)
  ∧ ((∀ i, i < runStagePhaseCount numTTFR measureLatency latencyConfigs →
        codes i = 143) →
      run_stage .run numTTFR measureLatency latencyConfigs codes imageCode =
        .ok 143)
  ∧ (∀ i0, i0 < runStagePhaseCount numTTFR measureLatency latencyConfigs →
      codes i0 ≠ 143 → (∀ j, j < i0 → codes j = 143) →
      run_stage .run numTTFR measureLatency latencyConfigs codes imageCode =
        .error ("The server application unexpectedly ended with return code " ++
          toString (codes i0))) := by
  have hP : numTTFR + 2 ≤ runStagePhaseCount numTTFR measureLatency latencyConfigs :=
    Nat.le_add_right _ _
  refine ⟨rfl, rfl, ?_, ?_⟩
  · intro hall
    have h0 := ttfrLoop_ok codes numTTFR 0 (fun j _ hj => hall j (by omega))
    have h1 := measurePhase_ok (hall numTTFR (by omega))
    have h2 := measurePhase_ok (hall (numTTFR + 1) (by omega))
    by_cases hml : measureLatency = true
    · by_cases hfix : latencyConfigs.any hasFixedRate = true
      · have hcount : runStagePhaseCount numTTFR measureLatency latencyConfigs =
            numTTFR + 3 := by
          unfold runStagePhaseCount
          rw [if_pos hml, if_pos hfix]
        have h3 := measurePhase_ok (hall (numTTFR + 2) (by omega))
        simp only [run_stage, h0, h1, h2, hml, hfix, if_true, h3]
      · have hcount : runStagePhaseCount numTTFR measureLatency latencyConfigs =
            numTTFR + 4 := by
          unfold runStagePhaseCount
          rw [if_pos hml, if_neg hfix]
        have h3 := measurePhase_ok (hall (numTTFR + 2) (by omega))
        have h4 := measurePhase_ok (hall (numTTFR + 3) (by omega))
        simp only [run_stage, h0, h1, h2, hml, if_true, h3, h4]
        rw [if_neg hfix]
    · simp only [run_stage, h0, h1, h2]
      rw [if_neg hml]
  · intro i0 hi0 hbad hgood
    by_cases hlow : i0 < numTTFR
    · simp only [run_stage, ttfrLoop_bad codes numTTFR 0 i0 (by omega)
        (by omega) hbad (fun j _ hj2 => hgood j hj2)]
    · have h0 := ttfrLoop_ok codes numTTFR 0 (fun j _ hj => hgood j (by omega))
      by_cases hml : measureLatency = true
      · by_cases hfix : latencyConfigs.any hasFixedRate = true
        · have hcount : runStagePhaseCount numTTFR measureLatency latencyConfigs =
              numTTFR + 3 := by
            unfold runStagePhaseCount
            rw [if_pos hml, if_pos hfix]
          rw [hcount] at hi0
          rcases (by omega : i0 = numTTFR ∨ i0 = numTTFR + 1 ∨ i0 = numTTFR + 2)
            with rfl | rfl | rfl
          · simp only [run_stage, h0, measurePhase_bad hbad]
          · simp only [run_stage, h0, measurePhase_ok (hgood numTTFR (by omega)),
              measurePhase_bad hbad]
          · simp only [run_stage, h0, measurePhase_ok (hgood numTTFR (by omega)),
              measurePhase_ok (hgood (numTTFR + 1) (by omega)), hml, hfix,
              if_true, measurePhase_bad hbad]
        · have hcount : runStagePhaseCount numTTFR measureLatency latencyConfigs =
              numTTFR + 4 := by
            unfold runStagePhaseCount
            rw [if_pos hml, if_neg hfix]
          rw [hcount] at hi0
          rcases (by omega : i0 = numTTFR ∨ i0 = numTTFR + 1 ∨
              i0 = numTTFR + 2 ∨ i0 = numTTFR + 3) with rfl | rfl | rfl | rfl
          · simp only [run_stage, h0, measurePhase_bad hbad]
          · simp only [run_stage, h0, measurePhase_ok (hgood numTTFR (by omega)),
              measurePhase_bad hbad]
          · simp only [run_stage, h0, measurePhase_ok (hgood numTTFR (by omega)),
              measurePhase_ok (hgood (numTTFR + 1) (by omega)), hml, if_true,
              measurePhase_bad hbad]
            rw [if_neg hfix]
          · simp only [run_stage, h0, measurePhase_ok (hgood numTTFR (by omega)),
              measurePhase_ok (hgood (numTTFR + 1) (by omega)), hml, if_true,
              measurePhase_ok (hgood (numTTFR + 2) (by omega)),
              measurePhase_bad hbad]
            rw [if_neg hfix]
      · have hcount : runStagePhaseCount numTTFR measureLatency latencyConfigs =
            numTTFR + 2 := by
          unfold runStagePhaseCount
          rw [if_neg hml]
        rw [hcount] at hi0
        rcases (by omega : i0 = numTTFR ∨ i0 = numTTFR + 1) with rfl | rfl
        · simp only [run_stage, h0, measurePhase_bad hbad]
        · simp only [run_stage, h0, measurePhase_ok (hgood numTTFR (by omega)),
            measurePhase_bad hbad]

/-- Witness for C2 amended: an agent stage returning exit code 143
unvalidated, and a clean `run` stage with all phases exiting 143. -/
theorem C2_run_stage_spec_witness :
    run_stage .agent 10 true [] (fun _ => (143 : ℤ)) 0 =
      .ok ((fun _ => (143 : ℤ)) 0)
  ∧ run_stage .run 2 false [] (fun _ => (143 : ℤ)) 0 = .ok 143 :=
  ⟨(C2_run_stage_spec 10 true [] (fun _ => (143 : ℤ)) 0).1,
   (C2_run_stage_spec 2 false [] (fun _ => (143 : ℤ)) 0).2.2.1 (fun _ _ => rfl)⟩

end MxSdkBenchmark
